import Mathlib

/-!
Verification of the run-aggregation and dependency-ordering logic of the
pipeline-timings repository (src/workflow_rt.py, src/plot.py,
src/extract_workflow_ids.py) against its natural-language specification.

The Python source is shallowly embedded: JSON-ish dynamic values are modelled
by small inductive types, pandas dataframes by lists of structures, Python
dicts (insertion-ordered) by association lists kept in insertion order, and
Python exceptions by Except.  Numeric wallclock values are modelled by Nat
(the data model documents duration_seconds as a non-negative number).
-/

/-- Value found in the wallclock_seconds field of a raw record: either a
number (modelled by Nat) or a malformed non-numeric JSON value (modelled by
a string).  Only these two shapes matter to the aggregation logic. -/
inductive JVal where
  | num (n : Nat)
  | str (s : String)
deriving DecidableEq

/-- One raw step record as returned by the metrics store and consumed by
parseJson in src/workflow_rt.py.  Every field is read with dict.get in the
source, so every field is optional. -/
structure RawRec where
  workflow_name : Option String
  start_time : Option String
  end_time : Option String
  wallclock_seconds : Option JVal
  workflow_run_id : Option String
deriving DecidableEq

/-- One row of the workflow_metrics dataframe built by parseJson
(src/workflow_rt.py lines 141-151). -/
structure MetricsRow where
  workflow_name : Option String
  start_time : Option String
  end_time : Option String
  wallclock_seconds : Option JVal
  workflow_run_id : Option String
  max_provisionFileOut_wallclock_seconds : JVal
deriving DecidableEq

/-- Python max on two dynamic values: numbers compare as numbers, strings
compare lexicographically, and a mixed comparison raises TypeError (as
max(0, "abc") does in Python 3).  Python max returns the second argument
only when it is strictly greater. -/
def pyMax : JVal → JVal → Except String JVal
  | .num a, .num b => .ok (.num (max a b))
  | .str a, .str b => .ok (if a < b then .str b else .str a)
  | _, _ => .error "TypeError: comparison of str and int"

/-- The per-run accumulator of parseJson (src/workflow_rt.py lines 128-132):
the list of non-auxiliary records seen so far (in input order) and the
running maximum over provisionFileOut wallclock values, initialised to 0. -/
structure RunGroup where
  workflows : List RawRec
  max_provisionFileOut : JVal
deriving DecidableEq

/-- The grouped_by_run_id dict of parseJson: a Python dict keyed by the
(possibly missing) workflow_run_id, modelled as an insertion-ordered
association list, as Python dicts preserve insertion order. -/
abbrev RunDict := List (Option String × RunGroup)

/-- Loop body of parseJson for a single record against the group it belongs
to (src/workflow_rt.py lines 133-139): a provisionFileOut record feeds the
running maximum (with absent duration defaulting to 0, and Python max
raising on a non-numeric value); any other record is appended to the
group's workflow list. -/
def applyRec (w : RawRec) (g : RunGroup) : Except String RunGroup :=
  if w.workflow_name = some "provisionFileOut" then
    match pyMax g.max_provisionFileOut (w.wallclock_seconds.getD (.num 0)) with
    | .ok m => .ok { g with max_provisionFileOut := m }
    | .error e => .error e
  else
    .ok { g with workflows := g.workflows ++ [w] }

/-- One iteration of the grouping loop of parseJson (src/workflow_rt.py
lines 126-139): find the record's run id in the dict (first match), create
a fresh group at the end of the dict when the id is new (Python dicts
append new keys at the end), and apply the record to its group. -/
def groupStep (w : RawRec) : RunDict → Except String RunDict
  | [] =>
      match applyRec w { workflows := [], max_provisionFileOut := .num 0 } with
      | .ok g => .ok [(w.workflow_run_id, g)]
      | .error e => .error e
  | (k, g) :: rest =>
      if k = w.workflow_run_id then
        match applyRec w g with
        | .ok g2 => .ok ((k, g2) :: rest)
        | .error e => .error e
      else
        match groupStep w rest with
        | .ok rest2 => .ok ((k, g) :: rest2)
        | .error e => .error e

/-- The whole grouping loop of parseJson (src/workflow_rt.py lines 124-139). -/
def groupByRunId (data : List RawRec) : Except String RunDict :=
  data.foldlM (fun gs w => groupStep w gs) []

/-- Emission loop of parseJson (src/workflow_rt.py lines 141-151): one
output row per stored non-auxiliary record, each row carrying its group's
final provisionFileOut maximum. -/
def emitRows (gs : RunDict) : List MetricsRow :=
  gs.flatMap (fun e =>
    e.2.workflows.map (fun wf =>
      { workflow_name := wf.workflow_name
        start_time := wf.start_time
        end_time := wf.end_time
        wallclock_seconds := wf.wallclock_seconds
        workflow_run_id := e.1
        max_provisionFileOut_wallclock_seconds := e.2.max_provisionFileOut }))

/-- parseJson (src/workflow_rt.py lines 109-153) applied to an empty initial
dataframe: group records by run id, then emit one row per non-auxiliary
record.  A Python TypeError raised by max surfaces as an error. -/
def parseJson (data : List RawRec) : Except String (List MetricsRow) :=
  match groupByRunId data with
  | .ok gs => .ok (emitRows gs)
  | .error e => .error e

/-- Whether a record is the reserved auxiliary step. -/
def isAux (w : RawRec) : Bool := w.workflow_name == some "provisionFileOut"

/-- The numeric contribution of one record to the auxiliary maximum: its
wallclock value when numeric, 0 when the field is absent (dict.get default). -/
def auxContrib (w : RawRec) : Nat :=
  match w.wallclock_seconds with
  | some (.num n) => n
  | some (.str _) => 0
  | none => 0

/-- Spec-side definition of the auxiliary maximum, following the words of
the specification: the maximum duration over all records of the run id's
partition whose step name equals provisionFileOut, 0 if there are none,
with an absent duration contributing 0. -/
def specAuxMax (data : List RawRec) (rid : Option String) : Nat :=
  ((data.filter (fun w => w.workflow_run_id == rid && isAux w)).map auxContrib).foldl max 0

/-- Number of emitted rows a dict accounts for, per run id. -/
def dictRunCount (gs : RunDict) (rid : Option String) : Nat :=
  (gs.map (fun e => if e.1 == rid then e.2.workflows.length else 0)).sum

/-- Whether a record cannot make Python max raise: it is either not the
auxiliary step, or its duration is absent or numeric. -/
def auxDurOk (w : RawRec) : Bool :=
  !isAux w ||
    (match w.wallclock_seconds with
     | some (.str _) => false
     | _ => true)

/-- Loop invariant of the grouping fold of parseJson, relating the dict to
the prefix of records already processed: keys are distinct, every processed
record's run id owns an entry, and each entry holds exactly its partition's
non-auxiliary records (in input order) and the auxiliary maximum of its
partition so far. -/
def GroupInv (data : List RawRec) (gs : RunDict) : Prop :=
  (gs.map Prod.fst).Nodup
  ∧ (∀ w ∈ data, w.workflow_run_id ∈ gs.map Prod.fst)
  ∧ (∀ e ∈ gs,
      e.2.workflows = data.filter (fun w => w.workflow_run_id == e.1 && !isAux w)
      ∧ e.2.max_provisionFileOut = .num (specAuxMax data e.1))

/-- Order on coerced timestamp cells as pandas sort_values sees them with
the default na_position last: a missing value (NaT, modelled none) sorts
after every real value. -/
def keyLe : Option Nat → Option Nat → Bool
  | some a, some b => a ≤ b
  | some _, none => true
  | none, some _ => false
  | none, none => true

/-- The sort performed by pandas sort_values on one key column with
na_position last.  sort_values only guarantees an output ordered by the key
(its default quicksort is not documented stable); the model uses insertion
sort as one executable realisation, and only tie-insensitive properties
(being a permutation, being ordered by the key) are proved from it. -/
def sortOn {α : Type} (key : α → Option Nat) (l : List α) : List α :=
  List.insertionSort (fun a b => keyLe (key a) (key b) = true) l

/-- Modelled timestamp parsing: pd.to_datetime maps a string either to a
point on the time axis or fails to parse it.  Calendar syntax is abstracted
to natural-number syntax, preserving exactly what the ordering claims need:
parsable values are totally ordered and unparsable values exist. -/
def parseTs (s : String) : Option Nat :=
  if !s.data.isEmpty && s.data.all Char.isDigit then
    some (s.data.foldl (fun acc c => acc * 10 + (c.toNat - 48)) 0)
  else none

/-- pd.to_datetime on one cell with errors coerce (src/workflow_rt.py
lines 296-297): missing values and unparsable strings both become NaT. -/
def toDatetimeCoerce : Option String → Option Nat
  | none => none
  | some s => parseTs s

/-- pd.to_datetime on one cell with the default errors raise (src/plot.py
lines 118-119): a missing value becomes NaT, but an unparsable string
raises and aborts the whole conversion. -/
def toDatetimeRaise : Option String → Except String (Option Nat)
  | none => .ok none
  | some s =>
      match parseTs s with
      | some n => .ok (some n)
      | none => .error ("ValueError: could not parse " ++ s)

/-- Row of the workflow_metrics dataframe as handed to the plotting
functions, timestamps still raw (possibly missing, possibly malformed). -/
structure GanttRow where
  workflow_name : Option String
  workflow_run_id : Option String
  start_time : Option String
  end_time : Option String
deriving DecidableEq

/-- Row after the to_datetime conversion of both timestamp columns. -/
structure SortedRow where
  workflow_name : Option String
  workflow_run_id : Option String
  start_dt : Option Nat
  end_dt : Option Nat
deriving DecidableEq

/-- Coercing conversion of one row (src/workflow_rt.py lines 296-297). -/
def coerceRow (r : GanttRow) : SortedRow :=
  { workflow_name := r.workflow_name
    workflow_run_id := r.workflow_run_id
    start_dt := toDatetimeCoerce r.start_time
    end_dt := toDatetimeCoerce r.end_time }

/-- Raising conversion of one row (src/plot.py lines 118-119). -/
def coerceRowRaise (r : GanttRow) : Except String SortedRow :=
  match toDatetimeRaise r.start_time with
  | .error e => .error e
  | .ok s =>
      match toDatetimeRaise r.end_time with
      | .error e => .error e
      | .ok t =>
          .ok { workflow_name := r.workflow_name
                workflow_run_id := r.workflow_run_id
                start_dt := s
                end_dt := t }

/-- Temporal ordering produced by ganttPlot in src/workflow_rt.py (lines
296-300): coerce both timestamp columns with errors coerce, then
sort_values by start_time, NaT cells sorting last and no row dropped. -/
def ganttPlotTemporalOrder (rows : List GanttRow) : List SortedRow :=
  sortOn (fun r => r.start_dt) (rows.map coerceRow)

/-- Conversion of the whole timestamp columns under errors raise: the
first unparsable cell aborts the conversion of the dataframe. -/
def convertRows : List GanttRow → Except String (List SortedRow)
  | [] => .ok []
  | r :: rest =>
      match coerceRowRaise r with
      | .error e => .error e
      | .ok s =>
          match convertRows rest with
          | .error e => .error e
          | .ok ss => .ok (s :: ss)

/-- Temporal ordering produced by gantt_plot in src/plot.py (lines
117-123): convert both timestamp columns with the default errors raise,
then sort_values by start_time.  An unparsable timestamp anywhere aborts
the conversion, so no ordering is produced at all. -/
def ganttPlotTemporalOrderStrict (rows : List GanttRow) :
    Except String (List SortedRow) :=
  match convertRows rows with
  | .error e => .error e
  | .ok rs => .ok (sortOn (fun r => r.start_dt) rs)

/-- Index lookup with a running offset, preferring the rightmost match:
later insertions into the order_map dict overwrite earlier ones, so a
duplicated name keeps its last index. -/
def orderMapPosFrom : Nat → List String → String → Option Nat
  | _, [], _ => none
  | i, w :: rest, name =>
      match orderMapPosFrom (i + 1) rest name with
      | some j => some j
      | none => if w == name then some i else none

/-- Position assigned to a step name by the order_map dict comprehension
(src/workflow_rt.py line 314, src/plot.py line 162): the index of the name
in workflow_run_order, none when the name does not occur there. -/
def orderMapPos (run_order : List String) (name : String) : Option Nat :=
  orderMapPosFrom 0 run_order name

/-- The run_order_y column (src/workflow_rt.py line 315, src/plot.py line
163): Series.map over order_map sends a name absent from the dict, or a
missing name, to NaN (none). -/
def runOrderKey (run_order : List String) (r : SortedRow) : Option Nat :=
  match r.workflow_name with
  | some n => orderMapPos run_order n
  | none => none

/-- Declared ordering (src/workflow_rt.py lines 314-316, src/plot.py lines
162-164): sort_values by the run_order_y column, NaN sorting last. -/
def sortByRunOrder (run_order : List String) (df : List SortedRow) :
    List SortedRow :=
  sortOn (runOrderKey run_order) df

/-- The y-axis label column workflow_name_id (src/workflow_rt.py line 301):
workflow_name + hyphen + workflow_run_id, NaN when either side is missing
(string concatenation with NaN propagates NaN in pandas). -/
def nameId (r : SortedRow) : Option String :=
  match r.workflow_name, r.workflow_run_id with
  | some n, some i => some (n ++ "-" ++ i)
  | _, _ => none

/-- One dependency arrow as built by addArrows / add_arrows: its x pair is
(end time of the upstream row, start time of the downstream row), its y
pair the two workflow_name_id labels. -/
structure Arrow where
  x : Option Nat × Option Nat
  y : Option String × Option String
deriving DecidableEq

/-- addArrows (src/workflow_rt.py lines 174-200; identically add_arrows in
src/plot.py lines 29-57): for every declared pair (workflow, dep) and every
pair of rows named after them, append one arrow from the upstream row's end
time to the downstream row's start time. -/
def addArrows (df : List SortedRow) (dependencies : List (String × List String)) :
    List Arrow :=
  dependencies.foldl (fun acc p =>
    p.2.foldl (fun acc dep =>
      let workflow_rows := df.filter (fun r => r.workflow_name == some p.1)
      let dep_rows := df.filter (fun r => r.workflow_name == some dep)
      workflow_rows.foldl (fun acc wr =>
        dep_rows.foldl (fun acc dr =>
          acc ++ [{ x := (wr.end_dt, dr.start_dt), y := (nameId wr, nameId dr) }])
          acc) acc) acc) []

/-- The cross-product reading of arrow generation, used to state that
addArrows produces exactly one arrow per declared pair and per pair of
matching rows. -/
def arrowsSpec (df : List SortedRow) (dependencies : List (String × List String)) :
    List Arrow :=
  dependencies.flatMap (fun p =>
    p.2.flatMap (fun dep =>
      (df.filter (fun r => r.workflow_name == some p.1)).flatMap (fun wr =>
        (df.filter (fun r => r.workflow_name == some dep)).map (fun dr =>
          { x := (wr.end_dt, dr.start_dt), y := (nameId wr, nameId dr) }))))

/-- JSON-like dynamic tree: maps, sequences and scalars, as consumed by the
identifier extractors. -/
inductive Json where
  | obj (fields : List (String × Json))
  | arr (items : List Json)
  | str (s : String)
  | num (n : Nat)
  | bool (b : Bool)
  | null

mutual

/-- extract_workflow_ids (src/extract_workflow_ids.py lines 6-20): walk the
tree; a field named workflow_id contributes its value as-is (no recursion
into it), any other field and every sequence item is scanned recursively;
scalars contribute nothing. -/
def extract_workflow_ids : Json → List Json
  | .obj fields => extractFields fields
  | .arr items => extractItems items
  | _ => []

/-- The dictionary loop of extract_workflow_ids. -/
def extractFields : List (String × Json) → List Json
  | [] => []
  | (k, v) :: rest =>
      (if k = "workflow_id" then [v] else extract_workflow_ids v) ++ extractFields rest

/-- The list loop of extract_workflow_ids. -/
def extractItems : List Json → List Json
  | [] => []
  | j :: rest => extract_workflow_ids j ++ extractItems rest

end

/-- Whether a Python value is hashable: dicts and lists are not. -/
def pyHashable : Json → Bool
  | .obj _ => false
  | .arr _ => false
  | _ => true

/-- Equality as used by Python set membership on the hashable scalars; two
structured values never reach a set in this code (building the set raises
first), so their comparison is irrelevant and returns false. -/
def scalarBeq : Json → Json → Bool
  | .str a, .str b => a == b
  | .num a, .num b => a == b
  | .bool a, .bool b => a == b
  | .null, .null => true
  | _, _ => false

/-- Python list(set(xs)): raises TypeError when any element is unhashable,
otherwise deduplicates.  A Python set iterates in an unspecified order;
the model fixes first-occurrence order, and only membership facts are
proved about the result. -/
def pySetList (xs : List Json) : Except String (List Json) :=
  if xs.all pyHashable then
    .ok (xs.foldl (fun acc v => if acc.any (scalarBeq v) then acc else acc ++ [v]) [])
  else .error "TypeError: unhashable type"

mutual

/-- extractWfId (src/workflow_rt.py lines 15-38): same walk as
extract_workflow_ids, except that every recursion level returns
list(set(workflow_ids)), so an unhashable (nested dict or list) value
collected under a workflow_id key raises TypeError. -/
def extractWfId : Json → Except String (List Json)
  | .obj fields =>
      match wfIdFields fields with
      | .ok xs => pySetList xs
      | .error e => .error e
  | .arr items =>
      match wfIdItems items with
      | .ok xs => pySetList xs
      | .error e => .error e
  | _ => pySetList []

/-- The dictionary loop of extractWfId. -/
def wfIdFields : List (String × Json) → Except String (List Json)
  | [] => .ok []
  | (k, v) :: rest =>
      match (if k = "workflow_id" then .ok [v] else extractWfId v : Except String (List Json)) with
      | .ok h =>
          match wfIdFields rest with
          | .ok t => .ok (h ++ t)
          | .error e => .error e
      | .error e => .error e

/-- The list loop of extractWfId. -/
def wfIdItems : List Json → Except String (List Json)
  | [] => .ok []
  | j :: rest =>
      match extractWfId j with
      | .ok h =>
          match wfIdItems rest with
          | .ok t => .ok (h ++ t)
          | .error e => .error e
      | .error e => .error e

end

/-- Occurrence judgment for the extractor claims: KeyVal d v holds when v
is the value of some workflow_id key in d, reachable without passing
through the value of an already-matched workflow_id key (the extractor
never recurses into a matched value). -/
inductive KeyVal : Json → Json → Prop where
  | here (fields : List (String × Json)) (v : Json) :
      ("workflow_id", v) ∈ fields → KeyVal (.obj fields) v
  | objStep (fields : List (String × Json)) (k : String) (c v : Json) :
      (k, c) ∈ fields → k ≠ "workflow_id" → KeyVal c v → KeyVal (.obj fields) v
  | arrStep (items : List Json) (c v : Json) :
      c ∈ items → KeyVal c v → KeyVal (.arr items) v

mutual

/-- Decidable absence of the workflow_id key anywhere in a tree. -/
def noKey : Json → Bool
  | .obj fields => noKeyFields fields
  | .arr items => noKeyItems items
  | _ => true

/-- noKey on the fields of a map. -/
def noKeyFields : List (String × Json) → Bool
  | [] => true
  | (k, v) :: rest => !(k == "workflow_id") && noKey v && noKeyFields rest

/-- noKey on the items of a sequence. -/
def noKeyItems : List Json → Bool
  | [] => true
  | j :: rest => noKey j && noKeyItems rest

end

/-- One row of the provenance report, restricted to the two consumed
columns (src/workflow_rt.py lines 58-59). -/
structure FprRow where
  rootSampleName : String
  workflowRunSwid : String
deriving DecidableEq

/-- One row of the sample-name dataframe built by queryFpr. -/
structure SnameRow where
  sample_name : String
  workflow_run_id : String
deriving DecidableEq

/-- Deduplication keeping the first occurrence, shared model of pandas
drop_duplicates and of Python list(set(...)) over values with decidable
equality (a Python set iterates in an unspecified order; first-occurrence
order is one realisation and only membership facts are proved). -/
def pyDedup {α : Type} [DecidableEq α] (xs : List α) : List α :=
  xs.foldl (fun acc v => if v ∈ acc then acc else acc ++ [v]) []

/-- pandas drop_duplicates: keep the first occurrence of each row. -/
def dropDuplicates (rows : List SnameRow) : List SnameRow :=
  pyDedup rows

/-- queryFpr (src/workflow_rt.py lines 42-69).  The gzip report reader is
injected as an Except value: ok with its rows when the report is readable,
error when reading raises.  On success the matching (sample, run) pairs are
collected and deduplicated (an empty match set yields an empty dataframe);
on any exception a single error message is printed and None is returned.
The result pairs the returned value with the printed error messages. -/
def queryFpr (report : Except String (List FprRow)) (workflow_ids : List String) :
    Option (List SnameRow) × List String :=
  match report with
  | .error e => (none, ["Unexpected error while querying FPR: " ++ e])
  | .ok rows =>
      (some (dropDuplicates
        ((rows.filter (fun r => workflow_ids.contains r.workflowRunSwid)).map
          (fun r => { sample_name := r.rootSampleName, workflow_run_id := r.workflowRunSwid }))),
       [])

/-- A metrics row after the left merge with the sample-name dataframe. -/
structure EnrichedRow where
  row : MetricsRow
  sample_name : Option String
deriving DecidableEq

/-- pd.merge with how left on workflow_run_id (src/workflow_rt.py line
431): every left row is kept; it is replicated once per matching right row,
or kept once with a missing sample_name when nothing matches. -/
def mergeLeft (rows : List MetricsRow) (sname : List SnameRow) : List EnrichedRow :=
  rows.flatMap (fun r =>
    let ms := sname.filter (fun s => (some s.workflow_run_id) == r.workflow_run_id)
    match ms with
    | [] => [{ row := r, sample_name := none }]
    | _ => ms.map (fun s => { row := r, sample_name := some s.sample_name }))

/-- Tail of processInput (src/workflow_rt.py lines 426-433): the merge,
plotting and CSV generation run only when BOTH workflow_metrics and
df_sname are non-None; otherwise processInput ends producing no output. -/
def processInputTail (workflow_metrics : Option (List MetricsRow))
    (df_sname : Option (List SnameRow)) : Option (List EnrichedRow) :=
  match workflow_metrics, df_sname with
  | some rows, some sname => some (mergeLeft rows sname)
  | _, _ => none

/-- One line of the persisted CSV, abstracting row serialisation: the
single header line or one payload row. -/
inductive CsvLine where
  | header
  | row (r : EnrichedRow)
deriving DecidableEq

/-- generateCSV (src/workflow_rt.py lines 360-369): to_csv with mode w and
header True.  The destination is truncated and rewritten with a header
row whether or not it already exists; a state of none means the file does
not exist yet.  The result is the file content after the call. -/
def generateCSV (_state : Option (List CsvLine)) (workflow_metrics : List EnrichedRow) :
    List CsvLine :=
  CsvLine.header :: workflow_metrics.map CsvLine.row

/-- One line of the persisted workflow-id text file. -/
inductive IdLine where
  | header
  | id (s : String)
deriving DecidableEq

/-- The persistence step of process_json_file (src/extract_workflow_ids.py
lines 44-53): open the destination in append mode, write the header line
only when the file did not already exist, then append one line per id. -/
def writeIdsFile (state : Option (List IdLine)) (workflow_ids : List String) :
    List IdLine :=
  match state with
  | none => IdLine.header :: workflow_ids.map IdLine.id
  | some content => content ++ workflow_ids.map IdLine.id

/-- Full match of the pattern of one or more alphanumeric-or-hyphen
characters, as tested by re.match with anchors in src/workflow_rt.py lines
402 and 408 (Char.isAlphanum is exactly ASCII A-Z, a-z, 0-9). -/
def isWfIdLine (s : String) : Bool :=
  !s.data.isEmpty && s.data.all (fun c => c.isAlphanum || c == '-')

/-- The header handling of the txt branch of processInput
(src/workflow_rt.py lines 401-404): the first line is dropped as a header
iff its stripped form does not fully match the id pattern. -/
def txtBody (lines : List String) : List String :=
  match lines with
  | [] => []
  | l0 :: rest => if isWfIdLine l0.trim then l0 :: rest else rest

/-- The id-collecting loop and final list(set(...)) of the txt branch
(src/workflow_rt.py lines 405-410). -/
def processTxt (lines : List String) : List String :=
  pyDedup (((txtBody lines).filter (fun l => isWfIdLine l.trim)).map (fun l => l.trim))

/-- Concrete input for the aggregation claims: one primary step and two
auxiliary provisionFileOut steps for one run id (the end-to-end scenario of
the specification). -/
def scenarioData : List RawRec :=
  [{ workflow_name := some "align", start_time := some "100",
     end_time := some "200", wallclock_seconds := some (.num 3600),
     workflow_run_id := some "A1" },
   { workflow_name := some "provisionFileOut", start_time := none, end_time := none,
     wallclock_seconds := some (.num 50), workflow_run_id := some "A1" },
   { workflow_name := some "provisionFileOut", start_time := none, end_time := none,
     wallclock_seconds := some (.num 80), workflow_run_id := some "A1" }]

/-- The single row parseJson emits for scenarioData. -/
def scenarioRow : MetricsRow :=
  { workflow_name := some "align", start_time := some "100",
    end_time := some "200", wallclock_seconds := some (.num 3600),
    workflow_run_id := some "A1",
    max_provisionFileOut_wallclock_seconds := .num 80 }

/-- Concrete input refuting claim C1: one run id reported with two distinct
non-auxiliary step records. -/
def twoPrimaryData : List RawRec :=
  [{ workflow_name := some "align", start_time := some "100",
     end_time := some "200", wallclock_seconds := some (.num 10),
     workflow_run_id := some "X" },
   { workflow_name := some "call", start_time := some "300",
     end_time := some "400", wallclock_seconds := some (.num 20),
     workflow_run_id := some "X" }]

/-- A provisionFileOut record whose wallclock_seconds is present but not a
number, for claim C6. -/
def badAuxRec : RawRec :=
  { workflow_name := some "provisionFileOut", start_time := none, end_time := none,
    wallclock_seconds := some (.str "abc"), workflow_run_id := some "A" }

/-- Concrete input refuting claim C6: a batch holding a provisionFileOut
record with malformed duration. -/
def badDurationData : List RawRec := [badAuxRec]

/-- Concrete row with an unparsable start timestamp, for claim C2. -/
def badTimeRow : GanttRow :=
  { workflow_name := some "align", workflow_run_id := some "R1",
    start_time := some "not-a-time", end_time := some "20" }

/-- Concrete tree refuting claim C9 for extractWfId: the value under the
workflow_id key is itself a nested (unhashable) structure. -/
def nestedIdTree : Json := .obj [("workflow_id", .obj [])]

/-- Concrete metrics row used by the claim C3 counterexample. -/
def sampleMetricsRow : MetricsRow :=
  { workflow_name := some "align", start_time := some "100",
    end_time := some "200", wallclock_seconds := some (.num 10),
    workflow_run_id := some "X",
    max_provisionFileOut_wallclock_seconds := .num 0 }

/-- Two distinct enriched rows for the persistence counterexample. -/
def enriched1 : EnrichedRow := { row := sampleMetricsRow, sample_name := some "S1" }

/-- Second enriched row for the persistence counterexample. -/
def enriched2 : EnrichedRow := { row := sampleMetricsRow, sample_name := some "S2" }

/-!  Theorems.  First the generic helper lemmas, then one theorem (plus
witness or counterexample) per claim of the specification. -/

theorem keyLe_total (a b : Option Nat) : keyLe a b = true ∨ keyLe b a = true := by
  cases a with
  | none =>
      cases b with
      | none => exact Or.inl rfl
      | some y => exact Or.inr rfl
  | some x =>
      cases b with
      | none => exact Or.inl rfl
      | some y => simpa [keyLe] using Nat.le_total x y

theorem keyLe_trans {a b c : Option Nat} (h1 : keyLe a b = true)
    (h2 : keyLe b c = true) : keyLe a c = true := by
  cases a with
  | none =>
      cases b with
      | none => exact h2
      | some y => exact absurd h1 (by simp [keyLe])
  | some x =>
      cases c with
      | none => rfl
      | some z =>
          cases b with
          | none => exact absurd h2 (by simp [keyLe])
          | some y =>
              simp only [keyLe, decide_eq_true_eq] at h1 h2 ⊢
              omega

theorem keyLe_none_left {a : Option Nat} (h : keyLe none a = true) : a = none := by
  cases a with
  | none => rfl
  | some x => simp [keyLe] at h

theorem sortOn_perm {α : Type} (key : α → Option Nat) (l : List α) :
    (sortOn key l).Perm l :=
  List.perm_insertionSort _ l

theorem sortOn_pairwise {α : Type} (key : α → Option Nat) (l : List α) :
    (sortOn key l).Pairwise (fun a b => keyLe (key a) (key b) = true) := by
  haveI : IsTotal α (fun a b => keyLe (key a) (key b) = true) :=
    ⟨fun a b => keyLe_total (key a) (key b)⟩
  haveI : IsTrans α (fun a b => keyLe (key a) (key b) = true) :=
    ⟨fun _ _ _ => keyLe_trans⟩
  exact List.sorted_insertionSort _ l

theorem pairwise_dropWhile_none {α : Type} (key : α → Option Nat) :
    ∀ l : List α, l.Pairwise (fun a b => keyLe (key a) (key b) = true) →
      (l.dropWhile (fun a => (key a).isSome)).all (fun a => (key a).isNone) = true
  | [], _ => rfl
  | x :: l, h => by
      rcases List.pairwise_cons.mp h with ⟨hx, hl⟩
      by_cases hs : (key x).isSome
      · rw [List.dropWhile_cons_of_pos (by simpa using hs)]
        exact pairwise_dropWhile_none key l hl
      · rw [List.dropWhile_cons_of_neg (by simpa using hs)]
        have hx0 : key x = none := Option.not_isSome_iff_eq_none.mp hs
        simp only [List.all_eq_true, List.mem_cons]
        rintro a (rfl | ha)
        · simp [hx0]
        · have := hx a ha
          rw [hx0] at this
          simp [keyLe_none_left this]

theorem coerceRowRaise_error_of_bad_start {r : GanttRow} {s : String}
    (hst : r.start_time = some s) (hp : parseTs s = none) :
    coerceRowRaise r = .error ("ValueError: could not parse " ++ s) := by
  simp [coerceRowRaise, toDatetimeRaise, hst, hp]

theorem convertRows_error_of_mem :
    ∀ {rows : List GanttRow} {r : GanttRow}, r ∈ rows →
      ∀ {e : String}, coerceRowRaise r = .error e →
        ∃ e2, convertRows rows = .error e2 := by
  intro rows
  induction rows with
  | nil => intro r h; exact absurd h (List.not_mem_nil r)
  | cons x rest ih =>
      intro r hr e he
      rcases List.mem_cons.mp hr with rfl | hm
      · exact ⟨e, by simp [convertRows, he]⟩
      · cases hx : coerceRowRaise x with
        | error e2 => exact ⟨e2, by simp [convertRows, hx]⟩
        | ok s =>
            rcases ih hm he with ⟨e2, h2⟩
            exact ⟨e2, by simp [convertRows, hx, h2]⟩

/-- Claim C2, as stated, fails on src/plot.py: a run whose start timestamp
does not parse is not placed last in the temporal ordering — gantt_plot
raises during the to_datetime conversion and no ordering is produced at
all, because its pd.to_datetime call uses the default errors raise. -/
theorem ganttPlot_temporal_order_counterexample :
    ganttPlotTemporalOrderStrict [badTimeRow] =
      .error ("ValueError: could not parse " ++ "not-a-time") := rfl

/-- Claim C2, amended.  In ganttPlot (src/workflow_rt.py lines 296-300) the
temporal ordering keeps every run (it is a permutation of the coerced
input), is ascending in the coerced start_time, and places runs whose
start timestamp is missing or unparsable (coerced to NaT) last; the order
among ties is whatever the sort produces, input-order stability not being
guaranteed by pandas sort_values with its default quicksort.  In gantt_plot
(src/plot.py lines 117-123) an unparsable timestamp instead aborts the
ordering with an error. -/
theorem ganttPlot_temporal_order_spec :
    (∀ rows : List GanttRow,
        (ganttPlotTemporalOrder rows).Perm (rows.map coerceRow))
    ∧ (∀ rows : List GanttRow,
        (ganttPlotTemporalOrder rows).Pairwise
          (fun a b => keyLe a.start_dt b.start_dt = true))
    ∧ (∀ rows : List GanttRow,
        ((ganttPlotTemporalOrder rows).dropWhile (fun r => r.start_dt.isSome)).all
          (fun r => r.start_dt.isNone) = true)
    ∧ (∀ (rows : List GanttRow) (r : GanttRow) (s : String), r ∈ rows →
        r.start_time = some s → parseTs s = none →
        ∃ e, ganttPlotTemporalOrderStrict rows = .error e) := by
  refine ⟨fun rows => sortOn_perm _ _, fun rows => sortOn_pairwise _ _,
    fun rows => pairwise_dropWhile_none _ _ (sortOn_pairwise _ _), ?_⟩
  intro rows r s hr hst hp
  rcases convertRows_error_of_mem hr (coerceRowRaise_error_of_bad_start hst hp) with ⟨e2, h2⟩
  exact ⟨e2, by simp [ganttPlotTemporalOrderStrict, h2]⟩

/-- Witness for the amended claim C2 at a concrete input: a list holding a
run with unparsable start timestamp makes the strict ordering fail. -/
theorem ganttPlot_temporal_order_spec_witness :
    (badTimeRow ∈ [badTimeRow] ∧ badTimeRow.start_time = some "not-a-time"
      ∧ parseTs "not-a-time" = none)
    ∧ ∃ e, ganttPlotTemporalOrderStrict [badTimeRow] = .error e :=
  ⟨⟨List.mem_singleton.mpr rfl, rfl, rfl⟩,
    ganttPlot_temporal_order_spec.2.2.2 [badTimeRow] badTimeRow "not-a-time"
      (List.mem_singleton.mpr rfl) rfl rfl⟩

theorem orderMapPosFrom_isSome :
    ∀ (i : Nat) (ro : List String) (n : String),
      (orderMapPosFrom i ro n).isSome = ro.contains n
  | _, [], _ => rfl
  | i, w :: rest, n => by
      have ih := orderMapPosFrom_isSome (i + 1) rest n
      rw [List.contains_cons]
      simp only [orderMapPosFrom]
      cases hrec : orderMapPosFrom (i + 1) rest n with
      | some j =>
          rw [hrec] at ih
          simp only [Option.isSome_some] at ih ⊢
          rw [← ih]
          simp
      | none =>
          rw [hrec] at ih
          simp only [Option.isSome_none] at ih
          rw [← ih, Bool.or_false]
          by_cases hw : w = n
          · subst hw
            simp
          · have hw2 : ¬n = w := fun h => hw h.symm
            simp [hw, hw2]

/-- Claim C7, confirmed.  The declared ordering is a permutation of its
input (no run dropped, no failure), is ascending in the run_order_y key —
the index of the run's step name in run_order, none when absent —, the key
is present exactly when the step name appears in run_order, and after the
prefix of runs with a declared position only runs without one remain, so
every declared-name run is placed strictly before every absent-name run. -/
theorem declared_order_spec :
    (∀ (ro : List String) (df : List SortedRow), (sortByRunOrder ro df).Perm df)
    ∧ (∀ (ro : List String) (df : List SortedRow),
        (sortByRunOrder ro df).Pairwise
          (fun a b => keyLe (runOrderKey ro a) (runOrderKey ro b) = true))
    ∧ (∀ (ro : List String) (r : SortedRow),
        (runOrderKey ro r).isSome =
          (match r.workflow_name with
           | some n => ro.contains n
           | none => false))
    ∧ (∀ (ro : List String) (df : List SortedRow),
        ((sortByRunOrder ro df).dropWhile (fun r => (runOrderKey ro r).isSome)).all
          (fun r => (runOrderKey ro r).isNone) = true) := by
  refine ⟨fun ro df => sortOn_perm _ _, fun ro df => sortOn_pairwise _ _, ?_,
    fun ro df => pairwise_dropWhile_none _ _ (sortOn_pairwise _ _)⟩
  intro ro r
  rcases r with ⟨wn, rid, sdt, edt⟩
  cases wn with
  | none => rfl
  | some n => simpa [runOrderKey, orderMapPos] using orderMapPosFrom_isSome 0 ro n

theorem foldl_append_one {β γ : Type} (f : β → γ) :
    ∀ (l : List β) (acc : List γ),
      l.foldl (fun a b => a ++ [f b]) acc = acc ++ l.map f
  | [], acc => by simp
  | x :: l, acc => by
      rw [List.foldl_cons, foldl_append_one f l, List.map_cons]
      simp

theorem foldl_append_flat {β γ : Type} (f : β → List γ) :
    ∀ (l : List β) (acc : List γ),
      l.foldl (fun a b => a ++ f b) acc = acc ++ l.flatMap f
  | [], acc => by simp
  | x :: l, acc => by
      rw [List.foldl_cons, foldl_append_flat f l, List.flatMap_cons]
      simp

theorem addArrows_eq_spec (df : List SortedRow) (deps : List (String × List String)) :
    addArrows df deps = arrowsSpec df deps := by
  unfold addArrows arrowsSpec
  simp only [foldl_append_one, foldl_append_flat, List.nil_append]

theorem flatMap_map_length {β γ δ : Type} (us : List β) (vs : List γ) (g : β → γ → δ) :
    (us.flatMap (fun u => vs.map (g u))).length = us.length * vs.length := by
  induction us with
  | nil => simp
  | cons u us ih => simp [List.flatMap_cons, ih, Nat.succ_mul, Nat.add_comm]

/-- Claim C8, confirmed.  Arrow generation is a full cross product: the
imperative accumulation of addArrows equals, pair for pair, the nested
cross-product enumeration (one arrow from the upstream row's end time to
the downstream row's start time for every declared dependency pair and
every pair of rows carrying those step names), and for a single declared
pair with m upstream and n downstream rows exactly m * n arrows arise. -/
theorem addArrows_cross_product :
    (∀ (df : List SortedRow) (deps : List (String × List String)),
        addArrows df deps = arrowsSpec df deps)
    ∧ (∀ (df : List SortedRow) (w d : String),
        (addArrows df [(w, [d])]).length =
          (df.filter (fun r => r.workflow_name == some w)).length *
            (df.filter (fun r => r.workflow_name == some d)).length) := by
  refine ⟨addArrows_eq_spec, ?_⟩
  intro df w d
  rw [addArrows_eq_spec]
  simp only [arrowsSpec, List.flatMap_cons, List.flatMap_nil, List.append_nil]
  exact flatMap_map_length _ _ _

/-- Counterexample to claim C3 as stated: with the provenance report
unreadable, processInput does not proceed with sample_name unset — the
merge, plotting and CSV stage is skipped entirely and no output at all is
produced, because queryFpr returned None. -/
theorem queryFpr_failure_counterexample :
    processInputTail (some [sampleMetricsRow])
      (queryFpr (.error "io error") ["X"]).1 = none := rfl

/-- Claim C3, amended.  When the provenance report is unreadable, queryFpr
reports exactly one error and returns None; processInput then skips the
merge, the plots and the CSV and produces no output (rather than
proceeding with sample_name unset).  When both inputs are present the
pipeline proceeds with the left merge, in which a run with no matching
sample row keeps an unset sample_name. -/
theorem queryFpr_failure_spec :
    (∀ (e : String) (ids : List String),
        queryFpr (.error e) ids =
          (none, ["Unexpected error while querying FPR: " ++ e]))
    ∧ (∀ (e : String) (ids : List String),
        ((queryFpr (.error e) ids).2).length = 1)
    ∧ (∀ wm : Option (List MetricsRow), processInputTail wm none = none)
    ∧ (∀ (rows : List MetricsRow) (sname : List SnameRow),
        processInputTail (some rows) (some sname) = some (mergeLeft rows sname)) := by
  refine ⟨fun e ids => rfl, fun e ids => rfl, ?_, fun rows sname => rfl⟩
  intro wm
  cases wm with
  | none => rfl
  | some rows => rfl

/-- Counterexample to claim C4 as stated: generateCSV does not append to an
existing destination — it truncates it, so a pre-existing row is gone after
the second invocation. -/
theorem generateCSV_counterexample :
    generateCSV (some [CsvLine.header, CsvLine.row enriched1]) [enriched2]
        = [CsvLine.header, CsvLine.row enriched2]
    ∧ generateCSV (some [CsvLine.header, CsvLine.row enriched1]) [enriched2]
        ≠ [CsvLine.header, CsvLine.row enriched1, CsvLine.row enriched2] :=
  ⟨rfl, by decide⟩

/-- Claim C4, amended.  The CSV of enriched runs (generateCSV) is written
with mode w: the destination content after a call is header plus the rows
of that call alone, independent of any prior content, with exactly one
header line.  The append-if-exists-else-create-with-header semantics holds
instead for the workflow-id text file of process_json_file: created with a
header when absent, appended without a header when present, so repeated
invocations accumulate ids under a single header. -/
theorem persistence_spec :
    (∀ (st1 st2 : Option (List CsvLine)) (rows : List EnrichedRow),
        generateCSV st1 rows = generateCSV st2 rows)
    ∧ (∀ (st : Option (List CsvLine)) (rows : List EnrichedRow),
        (generateCSV st rows).countP (fun l => l == CsvLine.header) = 1)
    ∧ (∀ ids : List String, writeIdsFile none ids = IdLine.header :: ids.map IdLine.id)
    ∧ (∀ (content : List IdLine) (ids : List String),
        writeIdsFile (some content) ids = content ++ ids.map IdLine.id)
    ∧ (∀ ids1 ids2 : List String,
        writeIdsFile (some (writeIdsFile none ids1)) ids2 =
          IdLine.header :: (ids1 ++ ids2).map IdLine.id) := by
  refine ⟨fun st1 st2 rows => rfl, ?_, fun ids => rfl, fun content ids => rfl, ?_⟩
  · intro st rows
    rw [generateCSV, List.countP_cons]
    simp [List.countP_eq_zero]
  · intro ids1 ids2
    simp [writeIdsFile]

theorem pyDedupLoop_mem {α : Type} [DecidableEq α] :
    ∀ (xs acc : List α) (a : α),
      a ∈ xs.foldl (fun acc v => if v ∈ acc then acc else acc ++ [v]) acc ↔
        a ∈ acc ∨ a ∈ xs
  | [], acc, a => by simp
  | x :: xs, acc, a => by
      rw [List.foldl_cons]
      by_cases hx : x ∈ acc
      · rw [if_pos hx, pyDedupLoop_mem xs acc a, List.mem_cons]
        constructor
        · rintro (h | h)
          · exact Or.inl h
          · exact Or.inr (Or.inr h)
        · rintro (h | rfl | h)
          · exact Or.inl h
          · exact Or.inl hx
          · exact Or.inr h
      · rw [if_neg hx, pyDedupLoop_mem xs (acc ++ [x]) a, List.mem_append,
          List.mem_singleton, List.mem_cons]
        tauto

theorem pyDedupLoop_nodup {α : Type} [DecidableEq α] :
    ∀ (xs acc : List α), acc.Nodup →
      (xs.foldl (fun acc v => if v ∈ acc then acc else acc ++ [v]) acc).Nodup
  | [], _, h => h
  | x :: xs, acc, h => by
      rw [List.foldl_cons]
      by_cases hx : x ∈ acc
      · rw [if_pos hx]
        exact pyDedupLoop_nodup xs acc h
      · rw [if_neg hx]
        refine pyDedupLoop_nodup xs (acc ++ [x]) ?_
        simp [List.nodup_append, h, hx]

theorem pyDedup_mem {α : Type} [DecidableEq α] (xs : List α) (a : α) :
    a ∈ pyDedup xs ↔ a ∈ xs := by
  rw [pyDedup, pyDedupLoop_mem]
  simp

theorem pyDedup_nodup {α : Type} [DecidableEq α] (xs : List α) :
    (pyDedup xs).Nodup :=
  pyDedupLoop_nodup xs [] List.nodup_nil

/-- Claim C10, confirmed.  In the txt branch of processInput the first line
is dropped as a header iff its stripped form does not fully match the
one-or-more alphanumeric-or-hyphen pattern; the result contains exactly the
stripped forms of the remaining fully-matching lines — so blank or
punctuation-bearing lines never appear — and contains no duplicates. -/
theorem processTxt_spec :
    (∀ (l0 : String) (rest : List String),
        txtBody (l0 :: rest) = if isWfIdLine l0.trim then l0 :: rest else rest)
    ∧ (∀ lines : List String, (processTxt lines).Nodup)
    ∧ (∀ (lines : List String) (s : String),
        s ∈ processTxt lines ↔
          (isWfIdLine s = true ∧ ∃ l ∈ txtBody lines, l.trim = s)) := by
  refine ⟨fun l0 rest => rfl, fun lines => pyDedup_nodup _, ?_⟩
  intro lines s
  rw [processTxt, pyDedup_mem, List.mem_map]
  constructor
  · rintro ⟨l, hl, rfl⟩
    rw [List.mem_filter] at hl
    exact ⟨hl.2, l, hl.1, rfl⟩
  · rintro ⟨hs, l, hl, rfl⟩
    exact ⟨l, List.mem_filter.mpr ⟨hl, hs⟩, rfl⟩

theorem applyRec_nonaux {w : RawRec} (h : isAux w = false) (g : RunGroup) :
    applyRec w g = .ok { g with workflows := g.workflows ++ [w] } := by
  rw [applyRec, if_neg]
  intro hw
  rw [isAux, hw] at h
  simp at h

theorem applyRec_aux_num {w : RawRec} (h : isAux w = true)
    (hok : ∀ s, w.wallclock_seconds ≠ some (.str s)) {a : Nat} (g : RunGroup)
    (hg : g.max_provisionFileOut = .num a) :
    applyRec w g = .ok { g with max_provisionFileOut := .num (max a (auxContrib w)) } := by
  rw [isAux] at h
  simp only [beq_iff_eq] at h
  rw [applyRec, if_pos h]
  cases hwc : w.wallclock_seconds with
  | none => simp [hg, pyMax, auxContrib, hwc]
  | some v =>
      cases v with
      | num n => simp [hg, pyMax, auxContrib, hwc]
      | str s => exact absurd hwc (hok s)

theorem applyRec_aux_str {w : RawRec} (h : isAux w = true) {s : String}
    (hwc : w.wallclock_seconds = some (.str s)) {a : Nat} (g : RunGroup)
    (hg : g.max_provisionFileOut = .num a) :
    applyRec w g = .error "TypeError: comparison of str and int" := by
  rw [isAux] at h
  simp only [beq_iff_eq] at h
  rw [applyRec, if_pos h, hwc, hg]
  rfl

theorem applyRec_ok_shape {w : RawRec} (hok : auxDurOk w = true) {a : Nat}
    (g : RunGroup) (hg : g.max_provisionFileOut = .num a) :
    applyRec w g =
      .ok { workflows := g.workflows ++ (if isAux w then [] else [w]),
            max_provisionFileOut :=
              .num (if isAux w then max a (auxContrib w) else a) } := by
  cases haux : isAux w with
  | false =>
      rw [applyRec_nonaux haux g]
      simp [hg]
  | true =>
      have hnostr : ∀ s, w.wallclock_seconds ≠ some (.str s) := by
        intro s hs
        rw [auxDurOk, haux, hs] at hok
        simp at hok
      rw [applyRec_aux_num haux hnostr g hg]
      simp

theorem groupStep_not_mem {w : RawRec} :
    ∀ {gs : RunDict}, w.workflow_run_id ∉ gs.map Prod.fst →
      groupStep w gs =
        (applyRec w { workflows := [], max_provisionFileOut := .num 0 }).map
          (fun g => gs ++ [(w.workflow_run_id, g)])
  | [], _ => by
      cases h : applyRec w { workflows := [], max_provisionFileOut := .num 0 } with
      | ok g => simp [groupStep, h, Except.map]
      | error e => simp [groupStep, h, Except.map]
  | (k, g) :: rest, hmem => by
      have hk : ¬(k = w.workflow_run_id) := by
        intro h
        exact hmem (by simp [h])
      have hrest : w.workflow_run_id ∉ rest.map Prod.fst := by
        intro h
        exact hmem (by simp [h])
      rw [groupStep, if_neg hk, groupStep_not_mem hrest]
      cases h : applyRec w { workflows := [], max_provisionFileOut := .num 0 } with
      | ok g2 => simp [Except.map, h]
      | error e => simp [Except.map, h]

theorem groupStep_mem {w : RawRec} :
    ∀ {pre : RunDict} {g : RunGroup} {post : RunDict},
      w.workflow_run_id ∉ pre.map Prod.fst →
      groupStep w (pre ++ (w.workflow_run_id, g) :: post) =
        (applyRec w g).map (fun g2 => pre ++ (w.workflow_run_id, g2) :: post)
  | [], g, post, _ => by
      rw [List.nil_append, groupStep, if_pos rfl]
      cases h : applyRec w g with
      | ok g2 => simp [Except.map, h]
      | error e => simp [Except.map, h]
  | (k, g1) :: pre, g, post, hmem => by
      have hk : ¬(k = w.workflow_run_id) := by
        intro h
        exact hmem (by simp [h])
      have hpre : w.workflow_run_id ∉ pre.map Prod.fst := by
        intro h
        exact hmem (by simp [h])
      rw [List.cons_append, groupStep, if_neg hk, groupStep_mem hpre]
      cases h : applyRec w g with
      | ok g2 => simp [Except.map, h]
      | error e => simp [Except.map, h]

theorem mem_map_fst_split {gs : RunDict} {k : Option String}
    (h : k ∈ gs.map Prod.fst) :
    ∃ pre g post, gs = pre ++ (k, g) :: post ∧ k ∉ pre.map Prod.fst := by
  induction gs with
  | nil => simp at h
  | cons e gs ih =>
      by_cases he : e.1 = k
      · obtain ⟨k1, g1⟩ := e
        subst he
        exact ⟨[], g1, gs, rfl, by simp⟩
      · have h2 : k ∈ gs.map Prod.fst := by
          rcases List.mem_cons.mp h with h1 | h1
          · exact absurd h1.symm he
          · exact h1
        rcases ih h2 with ⟨pre, g, post, rfl, hpre⟩
        refine ⟨e :: pre, g, post, rfl, ?_⟩
        simp only [List.map_cons, List.mem_cons]
        rintro (h1 | h1)
        · exact he h1.symm
        · exact hpre h1


theorem specAuxMax_append_one (ps : List RawRec) (w : RawRec) (rid : Option String) :
    specAuxMax (ps ++ [w]) rid =
      if w.workflow_run_id == rid && isAux w then
        max (specAuxMax ps rid) (auxContrib w)
      else specAuxMax ps rid := by
  rw [specAuxMax, specAuxMax, List.filter_append]
  cases h : (w.workflow_run_id == rid && isAux w) with
  | true =>
      rw [if_pos rfl]
      simp only [List.filter_cons, List.filter_nil, h, if_true]
      rw [List.map_append, List.foldl_append]
      rfl
  | false =>
      rw [if_neg (by simp)]
      simp only [List.filter_cons, List.filter_nil, h]
      rw [if_neg (by simp), List.append_nil]

theorem filter_rid_eq_nil {p : RawRec → Bool} {ps : List RawRec}
    (h : ∀ w ∈ ps, p w = false) : ps.filter p = [] := by
  induction ps with
  | nil => rfl
  | cons x ps ih =>
      rw [List.filter_cons, h x (by simp)]
      exact ih (fun w hw => h w (by simp [hw]))

theorem specAuxMax_of_no_rid {ps : List RawRec} {rid : Option String}
    (h : ∀ w ∈ ps, (w.workflow_run_id == rid) = false) : specAuxMax ps rid = 0 := by
  rw [specAuxMax, filter_rid_eq_nil (fun w hw => by rw [h w hw]; rfl)]
  rfl

theorem auxDurOk_of_applyRec_ok {w : RawRec} {g : RunGroup} {a : Nat}
    (hg : g.max_provisionFileOut = .num a) {gnew : RunGroup}
    (happ : applyRec w g = .ok gnew) : auxDurOk w = true := by
  rw [auxDurOk]
  cases haux : isAux w with
  | false => rfl
  | true =>
      cases hwc : w.wallclock_seconds with
      | none => rfl
      | some v =>
          cases v with
          | num n => rfl
          | str s =>
              rw [applyRec_aux_str haux hwc g hg] at happ
              exact absurd happ (by simp)

theorem entry_untouched {ps : List RawRec} {w : RawRec} {k : Option String}
    {g2 : RunGroup} (hne : (w.workflow_run_id == k) = false)
    (hw : g2.workflows = ps.filter (fun x => x.workflow_run_id == k && !isAux x))
    (hm : g2.max_provisionFileOut = .num (specAuxMax ps k)) :
    g2.workflows = (ps ++ [w]).filter (fun x => x.workflow_run_id == k && !isAux x)
      ∧ g2.max_provisionFileOut = .num (specAuxMax (ps ++ [w]) k) := by
  constructor
  · rw [List.filter_append, hw, List.filter_cons]
    have hc : (w.workflow_run_id == k && !isAux w) = false := by
      rw [hne]
      rfl
    rw [hc]
    simp
  · rw [hm, specAuxMax_append_one]
    have hc : (w.workflow_run_id == k && isAux w) = false := by
      rw [hne]
      rfl
    rw [hc]
    simp

theorem groupStep_inv {ps : List RawRec} {gs : RunDict} (hinv : GroupInv ps gs)
    {w : RawRec} {gs2 : RunDict} (hstep : groupStep w gs = .ok gs2) :
    GroupInv (ps ++ [w]) gs2 := by
  obtain ⟨hnd, hcov, hent⟩ := hinv
  have hbeqw : (w.workflow_run_id == w.workflow_run_id) = true := by simp
  by_cases hmem : w.workflow_run_id ∈ gs.map Prod.fst
  · rcases mem_map_fst_split hmem with ⟨pre, g, post, rfl, hpre⟩
    rw [groupStep_mem hpre] at hstep
    have hg1 : g.workflows =
        ps.filter (fun x => x.workflow_run_id == w.workflow_run_id && !isAux x) :=
      (hent (w.workflow_run_id, g) (by simp)).1
    have hg2 : g.max_provisionFileOut = .num (specAuxMax ps w.workflow_run_id) :=
      (hent (w.workflow_run_id, g) (by simp)).2
    cases happ : applyRec w g with
    | error e =>
        rw [happ] at hstep
        exact absurd hstep (by simp [Except.map])
    | ok gnew =>
        rw [happ] at hstep
        simp only [Except.map] at hstep
        cases hstep
        have hok : auxDurOk w = true := auxDurOk_of_applyRec_ok hg2 happ
        rw [applyRec_ok_shape hok g hg2] at happ
        injection happ with happ
        subst happ
        have hndkeys : w.workflow_run_id ∉ post.map Prod.fst := by
          have hnd2 := hnd
          rw [List.map_append, List.map_cons] at hnd2
          exact (List.nodup_cons.mp hnd2.of_append_right).1
        refine ⟨by simpa [List.map_append] using hnd, ?_, ?_⟩
        · intro w2 hw2
          rcases List.mem_append.mp hw2 with h2 | h2
          · have := hcov w2 h2
            rw [List.map_append, List.map_cons] at this ⊢
            simpa using this
          · rw [List.mem_singleton] at h2
            subst h2
            rw [List.map_append, List.map_cons]
            exact List.mem_append_right _ (by simp)
        · intro e he
          rcases List.mem_append.mp he with h2 | h2
          · have hne : (w.workflow_run_id == e.1) = false := by
              rw [beq_eq_false_iff_ne]
              intro hh
              exact hpre (hh ▸ List.mem_map_of_mem Prod.fst h2)
            exact entry_untouched hne (hent e (by simp [h2])).1 (hent e (by simp [h2])).2
          · rcases List.mem_cons.mp h2 with h3 | h3
            · subst h3
              dsimp only
              constructor
              · rw [List.filter_append, hg1, List.filter_cons, List.filter_nil]
                cases haux : isAux w with
                | false => simp [hbeqw, haux]
                | true => simp [hbeqw, haux]
              · rw [specAuxMax_append_one]
                cases haux : isAux w with
                | false => simp [hbeqw, haux]
                | true => simp [hbeqw, haux]
            · have hne : (w.workflow_run_id == e.1) = false := by
                rw [beq_eq_false_iff_ne]
                intro hh
                exact hndkeys (hh ▸ List.mem_map_of_mem Prod.fst h3)
              exact entry_untouched hne (hent e (by simp [h3])).1 (hent e (by simp [h3])).2
  · rw [groupStep_not_mem hmem] at hstep
    cases happ : applyRec w { workflows := [], max_provisionFileOut := .num 0 } with
    | error e =>
        rw [happ] at hstep
        exact absurd hstep (by simp [Except.map])
    | ok gnew =>
        rw [happ] at hstep
        simp only [Except.map] at hstep
        cases hstep
        have hok : auxDurOk w = true := auxDurOk_of_applyRec_ok rfl happ
        rw [applyRec_ok_shape hok _ rfl] at happ
        injection happ with happ
        subst happ
        have hnone : ∀ w2 ∈ ps, (w2.workflow_run_id == w.workflow_run_id) = false := by
          intro w2 hw2
          rw [beq_eq_false_iff_ne]
          intro hbeq
          exact hmem (hbeq ▸ hcov w2 hw2)
        refine ⟨?_, ?_, ?_⟩
        · rw [List.map_append, List.map_cons, List.map_nil, List.nodup_append]
          refine ⟨hnd, List.nodup_singleton _, ?_⟩
          intro a ha hb
          rw [List.mem_singleton] at hb
          subst hb
          exact hmem ha
        · intro w2 hw2
          rcases List.mem_append.mp hw2 with h2 | h2
          · rw [List.map_append]
            exact List.mem_append_left _ (hcov w2 h2)
          · rw [List.mem_singleton] at h2
            subst h2
            rw [List.map_append, List.map_cons]
            exact List.mem_append_right _ (by simp)
        · intro e he
          rcases List.mem_append.mp he with h2 | h2
          · have hne : (w.workflow_run_id == e.1) = false := by
              rw [beq_eq_false_iff_ne]
              intro hh
              exact hmem (hh ▸ List.mem_map_of_mem Prod.fst h2)
            exact entry_untouched hne (hent e h2).1 (hent e h2).2
          · rw [List.mem_singleton] at h2
            subst h2
            dsimp only
            constructor
            · rw [List.filter_append,
                filter_rid_eq_nil (fun w2 hw2 => by rw [hnone w2 hw2]; rfl),
                List.nil_append, List.filter_cons, List.filter_nil]
              cases haux : isAux w with
              | false => simp [hbeqw, haux]
              | true => simp [hbeqw, haux]
            · rw [specAuxMax_append_one, specAuxMax_of_no_rid hnone]
              cases haux : isAux w with
              | false => simp [hbeqw, haux]
              | true => simp [hbeqw, haux]

theorem groupStep_ok {ps : List RawRec} {gs : RunDict} (hinv : GroupInv ps gs)
    {w : RawRec} (hok : auxDurOk w = true) :
    ∃ gs2, groupStep w gs = .ok gs2 := by
  obtain ⟨hnd, hcov, hent⟩ := hinv
  by_cases hmem : w.workflow_run_id ∈ gs.map Prod.fst
  · rcases mem_map_fst_split hmem with ⟨pre, g, post, rfl, hpre⟩
    have hg2 : g.max_provisionFileOut = .num (specAuxMax ps w.workflow_run_id) :=
      (hent (w.workflow_run_id, g) (by simp)).2
    rw [groupStep_mem hpre, applyRec_ok_shape hok g hg2]
    exact ⟨_, rfl⟩
  · rw [groupStep_not_mem hmem, applyRec_ok_shape hok _ rfl]
    exact ⟨_, rfl⟩

theorem groupStep_error_of_bad {ps : List RawRec} {gs : RunDict}
    (hinv : GroupInv ps gs) {w : RawRec} (haux : isAux w = true) {s : String}
    (hwc : w.wallclock_seconds = some (.str s)) :
    groupStep w gs = .error "TypeError: comparison of str and int" := by
  obtain ⟨hnd, hcov, hent⟩ := hinv
  by_cases hmem : w.workflow_run_id ∈ gs.map Prod.fst
  · rcases mem_map_fst_split hmem with ⟨pre, g, post, rfl, hpre⟩
    have hg2 : g.max_provisionFileOut = .num (specAuxMax ps w.workflow_run_id) :=
      (hent (w.workflow_run_id, g) (by simp)).2
    rw [groupStep_mem hpre, applyRec_aux_str haux hwc g hg2]
    rfl
  · rw [groupStep_not_mem hmem, applyRec_aux_str haux hwc _ rfl]
    rfl

theorem groupInv_nil : GroupInv [] [] :=
  ⟨List.nodup_nil, fun w hw => absurd hw (List.not_mem_nil w),
    fun e he => absurd he (List.not_mem_nil e)⟩

theorem groupFold_inv (data : List RawRec) :
    ∀ {ps : List RawRec} {gs : RunDict}, GroupInv ps gs →
      ∀ {gsF : RunDict},
        List.foldlM (fun gs w => groupStep w gs) gs data = .ok gsF →
        GroupInv (ps ++ data) gsF := by
  induction data with
  | nil =>
      intro ps gs hinv gsF h
      rw [List.foldlM_nil] at h
      injection h with h
      subst h
      simpa using hinv
  | cons w data ih =>
      intro ps gs hinv gsF h
      rw [List.foldlM_cons] at h
      cases hstep : groupStep w gs with
      | error e =>
          rw [hstep,
            show ((Except.error e : Except String RunDict) >>=
                fun b => List.foldlM (fun gs w => groupStep w gs) b data) =
              Except.error e from rfl] at h
          exact Except.noConfusion h
      | ok gs1 =>
          rw [hstep,
            show Except.ok gs1 = (pure gs1 : Except String RunDict) from rfl,
            pure_bind] at h
          have := ih (groupStep_inv hinv hstep) h
          simpa [List.append_assoc] using this

theorem groupFold_ok (data : List RawRec) :
    ∀ {ps : List RawRec} {gs : RunDict}, GroupInv ps gs →
      (∀ w ∈ data, auxDurOk w = true) →
      ∃ gsF, List.foldlM (fun gs w => groupStep w gs) gs data = .ok gsF := by
  induction data with
  | nil => intro ps gs _ _; exact ⟨gs, rfl⟩
  | cons w data ih =>
      intro ps gs hinv hall
      rcases groupStep_ok hinv (hall w (by simp)) with ⟨gs1, hstep⟩
      rcases ih (groupStep_inv hinv hstep) (fun x hx => hall x (by simp [hx]))
        with ⟨gsF, hF⟩
      refine ⟨gsF, ?_⟩
      rw [List.foldlM_cons, hstep,
        show Except.ok gs1 = (pure gs1 : Except String RunDict) from rfl, pure_bind]
      exact hF

theorem groupFold_error (data : List RawRec) :
    ∀ {ps : List RawRec} {gs : RunDict}, GroupInv ps gs →
      ∀ {w : RawRec}, w ∈ data → isAux w = true →
      ∀ {s : String}, w.wallclock_seconds = some (.str s) →
      ∃ e, List.foldlM (fun gs w => groupStep w gs) gs data = .error e := by
  induction data with
  | nil =>
      intro ps gs _ w hw
      exact absurd hw (List.not_mem_nil w)
  | cons w0 data ih =>
      intro ps gs hinv w hw haux s hwc
      rcases List.mem_cons.mp hw with rfl | hw2
      · refine ⟨"TypeError: comparison of str and int", ?_⟩
        rw [List.foldlM_cons, groupStep_error_of_bad hinv haux hwc]
        rfl
      · cases hstep : groupStep w0 gs with
        | error e =>
            refine ⟨e, ?_⟩
            rw [List.foldlM_cons, hstep]
            rfl
        | ok gs1 =>
            rcases ih (groupStep_inv hinv hstep) hw2 haux hwc with ⟨e, he⟩
            refine ⟨e, ?_⟩
            rw [List.foldlM_cons, hstep,
              show Except.ok gs1 = (pure gs1 : Except String RunDict) from rfl,
              pure_bind]
            exact he

theorem parseJson_inv {data : List RawRec} {rows : List MetricsRow}
    (h : parseJson data = .ok rows) :
    ∃ gs, groupByRunId data = .ok gs ∧ GroupInv data gs ∧ rows = emitRows gs := by
  rw [parseJson] at h
  cases hg : groupByRunId data with
  | error e =>
      rw [hg] at h
      exact absurd h (by simp)
  | ok gs =>
      rw [hg] at h
      injection h with h
      refine ⟨gs, rfl, ?_, h.symm⟩
      have h2 : List.foldlM (fun gs w => groupStep w gs) [] data = .ok gs := hg
      simpa using groupFold_inv data groupInv_nil h2

theorem emitRows_countP (rid : Option String) :
    ∀ gs : RunDict,
      (emitRows gs).countP (fun r => r.workflow_run_id == rid) = dictRunCount gs rid
  | [] => rfl
  | e :: gs => by
      simp only [emitRows, List.flatMap_cons, List.countP_append, dictRunCount,
        List.map_cons, List.sum_cons]
      have h2 := emitRows_countP rid gs
      rw [emitRows] at h2
      rw [h2, List.countP_map]
      congr 1
      have hcomp : ((fun (r : MetricsRow) => r.workflow_run_id == rid) ∘ (fun wf =>
          ({ workflow_name := wf.workflow_name, start_time := wf.start_time,
             end_time := wf.end_time, wallclock_seconds := wf.wallclock_seconds,
             workflow_run_id := e.1,
             max_provisionFileOut_wallclock_seconds :=
               e.2.max_provisionFileOut } : MetricsRow)))
          = fun (_ : RawRec) => (e.1 == rid) := rfl
      rw [hcomp]
      cases hk : (e.1 == rid) with
      | true => simp [hk, List.countP_true]
      | false => simp [hk, List.countP_false]

theorem dictRunCount_eq_aux {data : List RawRec} (rid : Option String) :
    ∀ gs : RunDict, (gs.map Prod.fst).Nodup →
      (∀ e ∈ gs, e.2.workflows =
        data.filter (fun w => w.workflow_run_id == e.1 && !isAux w)) →
      dictRunCount gs rid =
        if rid ∈ gs.map Prod.fst
        then data.countP (fun w => w.workflow_run_id == rid && !isAux w)
        else 0
  | [], _, _ => by simp [dictRunCount]
  | e :: gs, hnd, hent => by
      rw [List.map_cons] at hnd
      have hnd2 : (gs.map Prod.fst).Nodup := (List.nodup_cons.mp hnd).2
      have ih := dictRunCount_eq_aux rid gs hnd2 (fun x hx => hent x (by simp [hx]))
      simp only [dictRunCount, List.map_cons, List.sum_cons] at ih ⊢
      by_cases hk : e.1 = rid
      · subst hk
        have hmem : e.1 ∉ gs.map Prod.fst := (List.nodup_cons.mp hnd).1
        rw [if_pos (List.mem_cons_self _ _), ih, if_neg hmem]
        have h1 := hent e (by simp)
        rw [if_pos (by simp), h1, ← List.countP_eq_length_filter, Nat.add_zero]
      · have hbk : (e.1 == rid) = false := by
          rw [beq_eq_false_iff_ne]
          exact hk
        rw [hbk, if_neg (by simp), Nat.zero_add, ih]
        have hmemiff : rid ∈ (e.1 :: gs.map Prod.fst) ↔ rid ∈ gs.map Prod.fst := by
          rw [List.mem_cons]
          constructor
          · rintro (h | h)
            · exact absurd h.symm hk
            · exact h
          · exact Or.inr
        by_cases hm : rid ∈ gs.map Prod.fst
        · rw [if_pos hm, if_pos (hmemiff.mpr hm)]
        · rw [if_neg hm, if_neg (fun hh => hm (hmemiff.mp hh))]

/-- Claim C1, as stated, fails on the code: a run id reported with two
distinct non-auxiliary step records yields two output rows, not one chosen
by a last-wins policy — parseJson keeps every non-auxiliary record of a
partition. -/
theorem parseJson_single_run_counterexample :
    (parseJson twoPrimaryData).map
        (fun rows => rows.countP (fun r => r.workflow_run_id == some "X")) =
      .ok 2 := rfl

/-- Claim C1, amended.  parseJson emits one row per non-auxiliary record:
for every run id, the number of emitted rows carrying it equals the number
of input records carrying it whose step name is not provisionFileOut — so
a run id whose records are all auxiliary yields no row, one with a single
primary record yields exactly one, and one with several non-auxiliary
records yields one row per record rather than a single last-wins row. -/
theorem parseJson_run_rows {data : List RawRec} {rows : List MetricsRow}
    (h : parseJson data = .ok rows) (rid : Option String) :
    rows.countP (fun r => r.workflow_run_id == rid) =
      data.countP (fun w => w.workflow_run_id == rid && !isAux w) := by
  obtain ⟨gs, hgb, ⟨hnd, hcov, hent⟩, rfl⟩ := parseJson_inv h
  rw [emitRows_countP rid gs,
    dictRunCount_eq_aux rid gs hnd (fun e he => (hent e he).1)]
  by_cases hmem : rid ∈ gs.map Prod.fst
  · rw [if_pos hmem]
  · rw [if_neg hmem]
    symm
    rw [List.countP_eq_zero]
    intro w hw hp
    rw [Bool.and_eq_true] at hp
    have heq : w.workflow_run_id = rid := by
      have := hp.1
      rwa [beq_iff_eq] at this
    exact hmem (heq ▸ hcov w hw)

/-- Witness for the amended claim C1 at the concrete scenario input. -/
theorem parseJson_run_rows_witness :
    (parseJson scenarioData = .ok [scenarioRow])
    ∧ [scenarioRow].countP (fun r => r.workflow_run_id == some "A1") =
        scenarioData.countP (fun w => w.workflow_run_id == some "A1" && !isAux w) :=
  ⟨rfl, parseJson_run_rows
    (rfl : parseJson scenarioData = Except.ok [scenarioRow]) (some "A1")⟩

theorem foldl_max_init : ∀ (l : List Nat) (a : Nat), l.foldl max a = max a (l.foldl max 0)
  | [], a => by simp
  | x :: l, a => by
      rw [List.foldl_cons, List.foldl_cons, foldl_max_init l (max a x),
        foldl_max_init l (max 0 x), Nat.zero_max, Nat.max_assoc]

theorem specAuxMax_self_append (data : List RawRec) (rid : Option String) :
    specAuxMax (data ++ data) rid = specAuxMax data rid := by
  rw [specAuxMax, specAuxMax, List.filter_append, List.map_append, List.foldl_append,
    foldl_max_init]
  exact Nat.max_self _

/-- Claim C5, confirmed.  Every emitted row's auxiliary maximum equals the
specification-side maximum over its partition's provisionFileOut records
(0 when there are none); a record with absent duration contributes 0; the
maximum is monotone non-decreasing as records are appended; and it is
unchanged when the whole input is duplicated. -/
theorem auxiliary_max_spec :
    (∀ (data : List RawRec) (rows : List MetricsRow), parseJson data = .ok rows →
        ∀ row ∈ rows,
          row.max_provisionFileOut_wallclock_seconds =
            .num (specAuxMax data row.workflow_run_id))
    ∧ (∀ w : RawRec, w.wallclock_seconds = none → auxContrib w = 0)
    ∧ (∀ (data : List RawRec) (w : RawRec) (rid : Option String),
        specAuxMax data rid ≤ specAuxMax (data ++ [w]) rid)
    ∧ (∀ (data : List RawRec) (rid : Option String),
        specAuxMax (data ++ data) rid = specAuxMax data rid) := by
  refine ⟨?_, ?_, ?_, specAuxMax_self_append⟩
  · intro data rows h row hrow
    obtain ⟨gs, hgb, ⟨hnd, hcov, hent⟩, rfl⟩ := parseJson_inv h
    rw [emitRows] at hrow
    rcases List.mem_flatMap.mp hrow with ⟨e, he, hre⟩
    rcases List.mem_map.mp hre with ⟨wf, hwf, rfl⟩
    exact (hent e he).2
  · intro w hw
    simp [auxContrib, hw]
  · intro data w rid
    rw [specAuxMax_append_one]
    by_cases hc : (w.workflow_run_id == rid && isAux w) = true
    · rw [if_pos hc]
      exact Nat.le_max_left _ _
    · rw [if_neg hc]

/-- Witness for claim C5 at the concrete scenario input: the emitted row
carries auxiliary maximum 80, the true maximum of its partition. -/
theorem auxiliary_max_spec_witness :
    (parseJson scenarioData = .ok [scenarioRow] ∧ scenarioRow ∈ [scenarioRow]
      ∧ specAuxMax scenarioData scenarioRow.workflow_run_id = 80)
    ∧ scenarioRow.max_provisionFileOut_wallclock_seconds =
        .num (specAuxMax scenarioData scenarioRow.workflow_run_id) :=
  ⟨⟨rfl, List.mem_singleton.mpr rfl, rfl⟩,
    auxiliary_max_spec.1 scenarioData [scenarioRow] rfl scenarioRow
      (List.mem_singleton.mpr rfl)⟩

/-- Claim C6, as stated, fails on the code: a provisionFileOut record whose
duration is present but not a number makes the whole aggregation raise a
TypeError inside Python max, instead of contributing zero. -/
theorem malformed_duration_counterexample :
    parseJson badDurationData = .error "TypeError: comparison of str and int" := rfl

/-- Claim C6, amended.  A batch in which every provisionFileOut record has
an absent or numeric duration aggregates successfully — in particular a
malformed duration on a non-auxiliary record does not fail and its other
fields are still extracted — but a provisionFileOut record with a present
non-numeric duration fails the whole aggregation with a TypeError. -/
theorem malformed_duration_spec :
    (∀ data : List RawRec, (∀ w ∈ data, auxDurOk w = true) →
        ∃ rows, parseJson data = .ok rows)
    ∧ (∀ (data : List RawRec) (w : RawRec), w ∈ data → isAux w = true →
        ∀ s : String, w.wallclock_seconds = some (.str s) →
        ∃ e, parseJson data = .error e) := by
  constructor
  · intro data hall
    rcases groupFold_ok data groupInv_nil hall with ⟨gsF, hF⟩
    refine ⟨emitRows gsF, ?_⟩
    unfold parseJson
    rw [show groupByRunId data =
      List.foldlM (fun gs w => groupStep w gs) [] data from rfl, hF]
  · intro data w hw haux s hwc
    rcases groupFold_error data groupInv_nil hw haux hwc with ⟨e, he⟩
    refine ⟨e, ?_⟩
    unfold parseJson
    rw [show groupByRunId data =
      List.foldlM (fun gs w => groupStep w gs) [] data from rfl, he]

/-- Witness for the amended claim C6: a batch whose auxiliary records are
well-formed (including a non-auxiliary record with any duration) succeeds,
and the concrete malformed auxiliary batch fails. -/
theorem malformed_duration_spec_witness :
    ((∀ w ∈ scenarioData, auxDurOk w = true)
      ∧ (∃ rows, parseJson scenarioData = .ok rows))
    ∧ ((badAuxRec ∈ badDurationData ∧ isAux badAuxRec = true
        ∧ badAuxRec.wallclock_seconds = some (.str "abc"))
      ∧ ∃ e, parseJson badDurationData = .error e) :=
  ⟨⟨by decide, malformed_duration_spec.1 scenarioData (by decide)⟩,
    ⟨⟨List.mem_singleton.mpr rfl, by decide, rfl⟩,
      malformed_duration_spec.2 badDurationData badAuxRec
        (List.mem_singleton.mpr rfl) (by decide) "abc" rfl⟩⟩

theorem mem_extractFields_of_key :
    ∀ {fields : List (String × Json)} {v : Json},
      ("workflow_id", v) ∈ fields → v ∈ extractFields fields
  | (k1, v1) :: rest, v, h => by
      rcases List.mem_cons.mp h with heq | hmem
      · injection heq with hk hv
        subst hk
        subst hv
        show v ∈ (if "workflow_id" = "workflow_id" then [v]
          else extract_workflow_ids v) ++ extractFields rest
        rw [if_pos rfl]
        exact List.mem_append_left _ (List.mem_singleton.mpr rfl)
      · show v ∈ (if k1 = "workflow_id" then [v1]
          else extract_workflow_ids v1) ++ extractFields rest
        exact List.mem_append_right _ (mem_extractFields_of_key hmem)

theorem mem_extractFields_of_rec :
    ∀ {fields : List (String × Json)} {k : String} {c v : Json},
      (k, c) ∈ fields → k ≠ "workflow_id" → v ∈ extract_workflow_ids c →
      v ∈ extractFields fields
  | (k1, v1) :: rest, k, c, v, h, hk, hv => by
      rcases List.mem_cons.mp h with heq | hmem
      · injection heq with h1 h2
        subst h1
        subst h2
        show v ∈ (if k = "workflow_id" then [c]
          else extract_workflow_ids c) ++ extractFields rest
        rw [if_neg hk]
        exact List.mem_append_left _ hv
      · show v ∈ (if k1 = "workflow_id" then [v1]
          else extract_workflow_ids v1) ++ extractFields rest
        exact List.mem_append_right _ (mem_extractFields_of_rec hmem hk hv)

theorem mem_extractItems_of_rec :
    ∀ {items : List Json} {c v : Json},
      c ∈ items → v ∈ extract_workflow_ids c → v ∈ extractItems items
  | j :: rest, c, v, h, hv => by
      rcases List.mem_cons.mp h with rfl | hmem
      · show v ∈ extract_workflow_ids c ++ extractItems rest
        exact List.mem_append_left _ hv
      · show v ∈ extract_workflow_ids j ++ extractItems rest
        exact List.mem_append_right _ (mem_extractItems_of_rec hmem hv)

theorem keyVal_mem_extract {d v : Json} (h : KeyVal d v) :
    v ∈ extract_workflow_ids d := by
  induction h with
  | here fields v hm => exact mem_extractFields_of_key hm
  | objStep fields k c v hm hk _ ih => exact mem_extractFields_of_rec hm hk ih
  | arrStep items c v hm _ ih => exact mem_extractItems_of_rec hm ih

mutual

theorem noKey_extract : ∀ (d : Json), noKey d = true → extract_workflow_ids d = []
  | .obj fields, h => noKey_extractFields fields h
  | .arr items, h => noKey_extractItems items h
  | .str _, _ => rfl
  | .num _, _ => rfl
  | .bool _, _ => rfl
  | .null, _ => rfl

theorem noKey_extractFields :
    ∀ (fields : List (String × Json)), noKeyFields fields = true →
      extractFields fields = []
  | [], _ => rfl
  | (k, v) :: rest, h => by
      simp only [noKeyFields, Bool.and_eq_true, Bool.not_eq_true'] at h
      obtain ⟨⟨hk, hv⟩, hrest⟩ := h
      have hkne : ¬(k = "workflow_id") := by
        intro hh
        subst hh
        simp at hk
      show (if k = "workflow_id" then [v] else extract_workflow_ids v)
          ++ extractFields rest = []
      rw [if_neg hkne, noKey_extract v hv, List.nil_append]
      exact noKey_extractFields rest hrest

theorem noKey_extractItems :
    ∀ (items : List Json), noKeyItems items = true → extractItems items = []
  | [], _ => rfl
  | j :: rest, h => by
      simp only [noKeyItems, Bool.and_eq_true] at h
      show extract_workflow_ids j ++ extractItems rest = []
      rw [noKey_extract j h.1, List.nil_append]
      exact noKey_extractItems rest h.2

end


mutual

theorem noKey_extractWfId : ∀ (d : Json), noKey d = true → extractWfId d = .ok []
  | .obj fields, h => by
      have h2 := noKey_wfIdFields fields h
      show (match wfIdFields fields with
            | Except.ok xs => pySetList xs
            | Except.error e => Except.error e) = Except.ok []
      rw [h2]
      rfl
  | .arr items, h => by
      have h2 := noKey_wfIdItems items h
      show (match wfIdItems items with
            | Except.ok xs => pySetList xs
            | Except.error e => Except.error e) = Except.ok []
      rw [h2]
      rfl
  | .str _, _ => rfl
  | .num _, _ => rfl
  | .bool _, _ => rfl
  | .null, _ => rfl

theorem noKey_wfIdFields :
    ∀ (fields : List (String × Json)), noKeyFields fields = true →
      wfIdFields fields = .ok []
  | [], _ => rfl
  | (k, v) :: rest, h => by
      simp only [noKeyFields, Bool.and_eq_true, Bool.not_eq_true'] at h
      obtain ⟨⟨hk, hv⟩, hrest⟩ := h
      have hkne : ¬(k = "workflow_id") := by
        intro hh
        subst hh
        simp at hk
      show (match (if k = "workflow_id" then Except.ok [v]
              else extractWfId v : Except String (List Json)) with
            | Except.ok hd =>
                match wfIdFields rest with
                | Except.ok t => Except.ok (hd ++ t)
                | Except.error e => Except.error e
            | Except.error e => Except.error e) = Except.ok []
      rw [if_neg hkne, noKey_extractWfId v hv, noKey_wfIdFields rest hrest]
      rfl

theorem noKey_wfIdItems :
    ∀ (items : List Json), noKeyItems items = true → wfIdItems items = .ok []
  | [], _ => rfl
  | j :: rest, h => by
      simp only [noKeyItems, Bool.and_eq_true] at h
      show (match extractWfId j with
            | Except.ok hd =>
                match wfIdItems rest with
                | Except.ok t => Except.ok (hd ++ t)
                | Except.error e => Except.error e
            | Except.error e => Except.error e) = Except.ok []
      rw [noKey_extractWfId j h.1, noKey_wfIdItems rest h.2]
      rfl

end

/-- Claim C9, as stated, fails for extractWfId in src/workflow_rt.py: when
the value under the workflow_id key is itself a nested structure, it is not
returned as-is — the final list(set(...)) raises TypeError because a dict
is unhashable. -/
theorem identifier_extractor_counterexample :
    extractWfId nestedIdTree = .error "TypeError: unhashable type" := rfl

/-- Claim C9, amended.  extract_workflow_ids returns every value keyed
workflow_id at any depth (not counting occurrences nested inside an
already-matched value), returns a matched value as-is without recursing
into it, and returns the empty list — being a total function, it never
fails — when the key is absent.  extractWfId also returns the empty list
without failing when the key is absent, but deduplicates through
list(set(...)) and therefore raises TypeError when a matched value is an
unhashable nested structure instead of returning it as-is. -/
theorem identifier_extractor_spec :
    (∀ (d v : Json), KeyVal d v → v ∈ extract_workflow_ids d)
    ∧ (∀ (v : Json) (fields : List (String × Json)),
        extract_workflow_ids (.obj (("workflow_id", v) :: fields)) =
          v :: extractFields fields)
    ∧ (∀ d : Json, noKey d = true → extract_workflow_ids d = [])
    ∧ (∀ d : Json, noKey d = true → extractWfId d = .ok []) := by
  refine ⟨fun d v h => keyVal_mem_extract h, ?_, noKey_extract, noKey_extractWfId⟩
  intro v fields
  show (if "workflow_id" = "workflow_id" then [v]
    else extract_workflow_ids v) ++ extractFields fields = v :: extractFields fields
  rw [if_pos rfl]
  rfl

/-- Witness for the amended claim C9 at concrete inputs: a deeply keyed
value is found, and a key-free tree yields empty results from both
extractors. -/
theorem identifier_extractor_spec_witness :
    (KeyVal (Json.obj [("a", Json.obj [("workflow_id", Json.str "A1")])])
        (Json.str "A1")
      ∧ Json.str "A1" ∈ extract_workflow_ids
          (Json.obj [("a", Json.obj [("workflow_id", Json.str "A1")])]))
    ∧ (noKey (Json.arr [Json.num 1]) = true
      ∧ extract_workflow_ids (Json.arr [Json.num 1]) = []
      ∧ extractWfId (Json.arr [Json.num 1]) = .ok []) :=
  ⟨⟨KeyVal.objStep _ "a" _ _ (List.mem_singleton.mpr rfl) (by decide)
      (KeyVal.here _ _ (List.mem_singleton.mpr rfl)),
    identifier_extractor_spec.1 _ _
      (KeyVal.objStep _ "a" _ _ (List.mem_singleton.mpr rfl) (by decide)
        (KeyVal.here _ _ (List.mem_singleton.mpr rfl)))⟩,
    ⟨rfl, identifier_extractor_spec.2.2.1 _ rfl,
      identifier_extractor_spec.2.2.2 _ rfl⟩⟩
